import Mathlib

/-!
# Verification of the loyalty reporter engine (promotion_agent.py)

A shallow embedding of the data model and operations of the reporter
classes in `promotion_agent.py`: Python JSON-ish values, dictionaries as
association lists with Python `dict` semantics, the listing/detail merge
functions, the paginated fetchers, the enrichment loops, the rule
interpretation functions and the summary-row ordering.

Conventions used throughout the embedding:
* Python `None` is `PVal.null`; a key that is absent from a dict is
  `Option.none` under `dget`, while `pyGet` mirrors Python's `d.get(k)`
  which returns `None` for an absent key.
* dicts are association lists with unique keys (Python dicts cannot hold
  duplicate keys); theorems that need it assume `Nodup` on the key list.
* Python exceptions on ill-typed operands (e.g. calling `dict.update` on a
  non-dict, or indexing a missing key) are outside the modelled input
  space; the corresponding total functions return an inert default there
  and every theorem is stated on well-formed inputs that never reach
  those defaults.
-/

/-- A Python/JSON value as it flows through the reporters. -/
inductive PVal where
  | null : PVal
  | bool : Bool → PVal
  | int : Int → PVal
  | str : String → PVal
  | list : List PVal → PVal
  | dict : List (String × PVal) → PVal

mutual

/-- Decidable equality on values (hand-written: the nested occurrence of
`PVal` under `List` defeats the automatic derivation). -/
def pvalDecEq : (a b : PVal) → Decidable (a = b)
  | .null, .null => isTrue rfl
  | .bool a, .bool b =>
    match decEq a b with
    | isTrue h => isTrue (by rw [h])
    | isFalse h => isFalse (by intro hh; cases hh; exact h rfl)
  | .int a, .int b =>
    match decEq a b with
    | isTrue h => isTrue (by rw [h])
    | isFalse h => isFalse (by intro hh; cases hh; exact h rfl)
  | .str a, .str b =>
    match decEq a b with
    | isTrue h => isTrue (by rw [h])
    | isFalse h => isFalse (by intro hh; cases hh; exact h rfl)
  | .list as, .list bs =>
    match plistDecEq as bs with
    | isTrue h => isTrue (by rw [h])
    | isFalse h => isFalse (by intro hh; cases hh; exact h rfl)
  | .dict as, .dict bs =>
    match pdictDecEq as bs with
    | isTrue h => isTrue (by rw [h])
    | isFalse h => isFalse (by intro hh; cases hh; exact h rfl)
  | .null, .bool _ | .null, .int _ | .null, .str _ | .null, .list _ | .null, .dict _
  | .bool _, .null | .bool _, .int _ | .bool _, .str _ | .bool _, .list _ | .bool _, .dict _
  | .int _, .null | .int _, .bool _ | .int _, .str _ | .int _, .list _ | .int _, .dict _
  | .str _, .null | .str _, .bool _ | .str _, .int _ | .str _, .list _ | .str _, .dict _
  | .list _, .null | .list _, .bool _ | .list _, .int _ | .list _, .str _ | .list _, .dict _
  | .dict _, .null | .dict _, .bool _ | .dict _, .int _ | .dict _, .str _ | .dict _, .list _ =>
    isFalse (by intro h; exact PVal.noConfusion h)

/-- Decidable equality on lists of values. -/
def plistDecEq : (a b : List PVal) → Decidable (a = b)
  | [], [] => isTrue rfl
  | [], _ :: _ => isFalse (by intro h; exact List.noConfusion h)
  | _ :: _, [] => isFalse (by intro h; exact List.noConfusion h)
  | a :: as, b :: bs =>
    match pvalDecEq a b, plistDecEq as bs with
    | isTrue h1, isTrue h2 => isTrue (by rw [h1, h2])
    | isFalse h1, _ => isFalse (by intro hh; cases hh; exact h1 rfl)
    | _, isFalse h2 => isFalse (by intro hh; cases hh; exact h2 rfl)

/-- Decidable equality on dict entry lists. -/
def pdictDecEq : (a b : List (String × PVal)) → Decidable (a = b)
  | [], [] => isTrue rfl
  | [], _ :: _ => isFalse (by intro h; exact List.noConfusion h)
  | _ :: _, [] => isFalse (by intro h; exact List.noConfusion h)
  | (k, v) :: as, (k', v') :: bs =>
    match decEq k k', pvalDecEq v v', pdictDecEq as bs with
    | isTrue h0, isTrue h1, isTrue h2 => isTrue (by rw [h0, h1, h2])
    | isFalse h0, _, _ => isFalse (by intro hh; cases hh; exact h0 rfl)
    | _, isFalse h1, _ => isFalse (by intro hh; cases hh; exact h1 rfl)
    | _, _, isFalse h2 => isFalse (by intro hh; cases hh; exact h2 rfl)

end

instance : DecidableEq PVal := pvalDecEq

/-- A Python dict (association list, keys unique in well-formed inputs). -/
abbrev PDict := List (String × PVal)

/-- `d[k]` lookup distinguishing an absent key (`none`) from a present
null (`some PVal.null`): first matching entry wins. -/
def dget : PDict → String → Option PVal
  | [], _ => none
  | (k', v) :: rest, k => if k = k' then some v else dget rest k

/-- Python `d[k] = v`: replace the first entry for `k`, or append a new
entry at the end (Python dicts preserve insertion order). -/
def dset : PDict → String → PVal → PDict
  | [], k, v => [(k, v)]
  | (k', v') :: rest, k, v =>
    if k = k' then (k, v) :: rest else (k', v') :: dset rest k v

/-- Python `a.update(b)`: apply `dset` for each entry of `b` in order. -/
def dupdate (a b : PDict) : PDict :=
  b.foldl (fun acc e => dset acc e.1 e.2) a

/-- Python `d.get(k)`: `None` when the key is absent. -/
def pyGet (d : PDict) (k : String) : PVal :=
  (dget d k).getD PVal.null

/-- Python `d.get(k, default)`. -/
def pyGetD (d : PDict) (k : String) (dflt : PVal) : PVal :=
  (dget d k).getD dflt

/-- Python truthiness of a value (`bool(v)`). -/
def truthy : PVal → Bool
  | .null => false
  | .bool b => b
  | .int z => z != 0
  | .str s => s != ""
  | .list xs => !xs.isEmpty
  | .dict xs => !xs.isEmpty

/-- View a value as a dict; non-dicts (which Python would refuse to index
with a string key) present as the empty dict. -/
def asDict : PVal → PDict
  | .dict d => d
  | _ => []

/-- View a value as a list for iteration; iterating a non-list is outside
the modelled input space and presents as the empty iteration. -/
def asList : PVal → List PVal
  | .list xs => xs
  | _ => []

/-- Python `a.update(b)` on values: defined when both sides are dicts,
which is the only case the source reaches on well-formed statistics
(Python raises otherwise; no theorem depends on the fallback). -/
def pvUpdate : PVal → PVal → PVal
  | .dict a, .dict b => .dict (dupdate a b)
  | a, _ => a

/-!
## The listing/detail merge
`RewardGroupsReporterFixed.merge_reward_group_data` (lines 129-147) and
`PromotionsReporterFinal.merge_promotion_data` (lines 1439-1461).

`merged = {}` followed by `merged.update(listing_data)` makes `merged` a
fresh top-level dict whose `"statistics"` entry aliases the listing's
nested statistics object; `merged["statistics"].update(value)` therefore
mutates the listing's statistics dict in place.  The embedding returns
the pair `(merged, listing-after-the-call)` and simulates the aliasing:
at the moment the update runs, the listing's statistics object is the
same object as `merged["statistics"]`, so both receive the update.
-/

/-- One iteration of the `for key, value in detail_data.items()` loop of
`merge_reward_group_data`; the state is `(merged, listing)`. -/
def mergeStep (s : PDict × PDict) (e : String × PVal) : PDict × PDict :=
  let m := s.1
  let l := s.2
  let key := e.1
  let value := e.2
  match dget m key with
  | none => (dset m key value, l)
  | some mv =>
    if mv = PVal.null then (dset m key value, l)
    else if key = "statistics" ∧ value ≠ PVal.null then
      if truthy mv then
        -- merged["statistics"].update(value): the listing's statistics
        -- object is aliased into merged, so the in-place update is
        -- visible through the listing as well.
        (dset m "statistics" (pvUpdate mv value),
         if dget l "statistics" = some mv then
           dset l "statistics" (pvUpdate mv value)
         else l)
      else (dset m "statistics" value, l)
    else (m, l)

/-- The `for` loop of the merge over the detail entries. -/
def mergeLoop : PDict × PDict → PDict → PDict × PDict
  | s, [] => s
  | s, e :: rest => mergeLoop (mergeStep s e) rest

/-- `RewardGroupsReporterFixed.merge_reward_group_data` (lines 129-147).
Returns `(merged, listing-after-the-call)`. -/
def merge_reward_group_data (listing detail : PDict) : PDict × PDict :=
  mergeLoop (listing, listing) detail

/-- `PromotionsReporterFinal.merge_promotion_data` (lines 1439-1461):
the same loop, then `merged["promotionType"] = listing_data["type"]`
whenever `"type" in listing_data` (even when its value is null). -/
def merge_promotion_data (listing detail : PDict) : PDict × PDict :=
  let r := mergeLoop (listing, listing) detail
  match dget listing "type" with
  | some t => (dset r.1 "promotionType" t, r.2)
  | none => r

/-- Per-key outcome of one merge-loop visit to key `k` carrying `v`,
given the value `cur` the merged dict currently holds at `k` (the
specification the merge lemmas below are phrased against). -/
def mergeVal (k : String) (cur : Option PVal) (v : PVal) : Option PVal :=
  match cur with
  | none => some v
  | some mv =>
    if mv = PVal.null then some v
    else if k = "statistics" ∧ v ≠ PVal.null then
      some (if truthy mv then pvUpdate mv v else v)
    else some mv

/-!
## Pagination and deduplication
`RewardGroupsReporterFixed.fetch_all_reward_groups` (lines 52-121) and
`PromotionsReporterFinal.fetch_all_promotions` (lines 1404-1431).

The upstream API is modelled by the page responses alone: `paged i` is
the `data` array of page `i` when the request succeeds and the response
is non-empty, and `none` when `make_api_call` fails (it returns `{}` on
any transport error, which the source treats as `if not response`).
`unpaged` is the `data` array of the parameter-free fallback call.
-/

/-- The listing endpoint as seen by `fetch_all_reward_groups`. -/
structure RGServer where
  paged : Nat → Option (List PDict)
  unpaged : Option (List PDict)

/-- Output of the reward-group pagination loop: the accumulated records,
the number of paginated page requests issued, whether the max-page
warning fired, and the early-returned fallback data if any. -/
structure RGOut where
  acc : List PDict
  calls : Nat
  warned : Bool
  fb : Option (List PDict)
deriving DecidableEq

/-- The `while page <= max_pages` loop of `fetch_all_reward_groups`
(lines 59-101), `max_pages = 20`.  `fuel` counts the pages the budget
still allows (`fuel = 21 - page` at every real call site, starting from
`page = 1, fuel = 20`), so `fuel = 0` is exactly the `page > max_pages`
exit, the one path on which the max-page warning fires.  The source's
append-only accumulator is realised by consing each page's data onto
the recursive result. -/
def rgLoop (srv : RGServer) (pp : Nat) : Nat → Nat → RGOut
  | _, 0 => ⟨[], 0, true, none⟩
  | page, fuel + 1 =>
    match srv.paged page with
    | none =>
      if page = 1 then
        match srv.unpaged with
        | some d => ⟨[], 1, false, some d⟩
        | none => ⟨[], 1, false, none⟩
      else ⟨[], 1, false, none⟩
    | some data =>
      if data = [] then ⟨[], 1, false, none⟩
      else if data.length < pp then ⟨data, 1, false, none⟩
      else
        let r := rgLoop srv pp (page + 1) fuel
        ⟨data ++ r.acc, r.calls + 1, r.warned, r.fb⟩

/-- The duplicate-removal loop of `fetch_all_reward_groups`
(lines 108-115): key on `group.get("id")` (so all records whose id is
absent or null share the key `None`), first occurrence wins. -/
def dedupGo (seen : List PVal) : List PDict → List PDict
  | [] => []
  | g :: rest =>
    if pyGet g "id" ∈ seen then dedupGo seen rest
    else g :: dedupGo (pyGet g "id" :: seen) rest

/-- `unique_groups` as computed at the end of `fetch_all_reward_groups`. -/
def dedupById (groups : List PDict) : List PDict :=
  dedupGo [] groups

/-- Overall result of `fetch_all_reward_groups`: the returned list, the
number of paginated requests, and whether the max-page warning fired. -/
structure FetchOut where
  result : List PDict
  pagedCalls : Nat
  warned : Bool
deriving DecidableEq

/-- `RewardGroupsReporterFixed.fetch_all_reward_groups` (lines 52-121):
run the page loop from page 1; the page-1 fallback path returns its data
directly (no dedup, before the warning check), every other path
deduplicates the accumulated pages by id. -/
def fetch_all_reward_groups (srv : RGServer) (pp : Nat) : FetchOut :=
  let r := rgLoop srv pp 1 20
  match r.fb with
  | some d => ⟨d, r.calls, false⟩
  | none => ⟨dedupById r.acc, r.calls, r.warned⟩

/-- The `while True` loop of `fetch_all_promotions` (lines 1410-1428).
The source has no page budget, so the embedding is fuel-indexed: `none`
means the loop is still running after `fuel` iterations.  A failed call
returns `{}`, hence `response.get("data", [])` is `[]`, hence the same
break as an empty page: the server is `Nat → Option (List PDict)` with
`none` collapsing to `[]` exactly as `.getD []` does. -/
def promoLoop (srv : Nat → Option (List PDict)) (pp : Nat) (page : Nat) :
    Nat → Option (List PDict × Nat)
  | 0 => none
  | fuel + 1 =>
    let data := (srv page).getD []
    if data = [] then some ([], 1)
    else if data.length < pp then some (data, 1)
    else
      match promoLoop srv pp (page + 1) fuel with
      | none => none
      | some (l, c) => some (data ++ l, c + 1)

/-- `PromotionsReporterFinal.fetch_all_promotions` (lines 1404-1431):
the raw accumulated pages and the request count — the source never
deduplicates this list. -/
def fetch_all_promotions (srv : Nat → Option (List PDict)) (pp fuel : Nat) :
    Option (List PDict × Nat) :=
  promoLoop srv pp 1 fuel

/-- The pages `s, s+1, ..., s+n-1` of a page table, concatenated. -/
def concatPages (d : Nat → List PDict) (s n : Nat) : List PDict :=
  ((List.range' s n).map d).flatten

/-!
## Per-entity enrichment loops
`RewardGroupsReporterFixed.generate_reward_group_report` (lines 484-506),
`TiersReporter.generate_tier_report` (lines 863-869) and
`RewardsReporter.generate_reward_report` (lines 1310-1315).

`fetchDetail` maps an entity id to the `data` of its detail call; `[]`
is the failed fetch (`make_api_call` returned `{}`, whose
`.get("data", {})` is `{}`, which is falsy).
-/

/-- The enrichment loop of `generate_reward_group_report`: entities with
a falsy id are skipped; a failed detail fetch keeps the listing record
as-is; a successful one keeps the merge of listing and detail. -/
def rgEnrichAll (fetchDetail : PVal → PDict) : List PDict → List PDict
  | [] => []
  | g :: rest =>
    if truthy (pyGet g "id") then
      (if fetchDetail (pyGet g "id") = [] then g
       else (merge_reward_group_data g (fetchDetail (pyGet g "id"))).1)
        :: rgEnrichAll fetchDetail rest
    else rgEnrichAll fetchDetail rest

/-- The enrichment loop of `TiersReporter.generate_tier_report`
(lines 863-869): only the detail record is kept, and a tier set whose
detail fetch fails is dropped from the report altogether. -/
def tiersEnrichAll (fetchDetail : PVal → PDict) : List PDict → List PDict
  | [] => []
  | t :: rest =>
    if fetchDetail (pyGet t "id") = [] then tiersEnrichAll fetchDetail rest
    else fetchDetail (pyGet t "id") :: tiersEnrichAll fetchDetail rest

/-- The enrichment loop of `RewardsReporter.generate_reward_report`
(lines 1310-1315): identical shape to the tiers loop — a reward whose
detail fetch fails is dropped. -/
def rewardsEnrichAll (fetchDetail : PVal → PDict) : List PDict → List PDict
  | [] => []
  | r :: rest =>
    if fetchDetail (pyGet r "id") = [] then rewardsEnrichAll fetchDetail rest
    else fetchDetail (pyGet r "id") :: rewardsEnrichAll fetchDetail rest

/-!
## Python string rendering
`str(v)` as used by the source's f-strings: bare text for strings,
`None`/`True`/`False`, decimal integers, and `repr`-style rendering of
the elements inside containers.
-/

mutual

/-- Python `repr(v)` for the modelled values. -/
def pvRepr : PVal → String
  | .null => "None"
  | .bool b => if b then "True" else "False"
  | .int z => toString z
  | .str s => "'" ++ s ++ "'"
  | .list xs => "[" ++ plistRepr xs ++ "]"
  | .dict xs => "\x7b" ++ pdictRepr xs ++ "\x7d"

/-- Comma-joined reprs of list elements. -/
def plistRepr : List PVal → String
  | [] => ""
  | [x] => pvRepr x
  | x :: y :: rest => pvRepr x ++ ", " ++ plistRepr (y :: rest)

/-- Comma-joined reprs of dict entries. -/
def pdictRepr : List (String × PVal) → String
  | [] => ""
  | [(k, v)] => "'" ++ k ++ "': " ++ pvRepr v
  | (k, v) :: e :: rest => "'" ++ k ++ "': " ++ pvRepr v ++ ", " ++ pdictRepr (e :: rest)

end

/-- Python `str(v)` (equals `repr` except on strings). -/
def pvStr : PVal → String
  | .str s => s
  | v => pvRepr v

/-!
## Rule interpretation
`RewardGroupsReporterFixed.interpret_rule_value` (lines 198-243),
`RewardGroupsReporterFixed.interpret_rule` (lines 245-292) and
`ProductGroupsReporter.interpret_rule` (lines 2453-2484).
-/

/-- `get_rule_definition` (lines 156-162 and 2395-2401): linear scan of
the fetched definitions for a matching `id`. -/
def get_rule_definition (ruleDefs : List PDict) (rid : PVal) : Option PDict :=
  ruleDefs.find? (fun rd => pyGet rd "id" = rid)

/-- `get_component_definition` (lines 164-170 and 2403-2409): when the
rule definition is truthy, scan its `components` for a matching `id`. -/
def get_component_definition (ruleDef : PDict) (cid : PVal) : Option PDict :=
  if ruleDef = [] then none
  else
    (asList (pyGetD ruleDef "components" (.list []))).map asDict
      |>.find? (fun c => pyGet c "id" = cid)

/-- `RewardGroupsReporterFixed.interpret_rule_value` (lines 198-243).
The source also computes `component_def`/`component_name` and
`operator_text` (lines 209-213), but none of the returned branches use
them, so the embedding elides those dead locals; the `except` fallback
(lines 241-243) is unreachable for the total model. -/
def interpret_rule_value (_ruleDef : PDict) (valueItem : PDict) : String :=
  let component := asDict (pyGetD valueItem "component" (.dict []))
  let componentType := pyGet component "type"
  let operator := pyGetD valueItem "operator" (.str "")
  let value1 := pyGet valueItem "value1"
  let value2 := pyGet valueItem "value2"
  let selectedText := pyGet valueItem "selectedText"
  if componentType = .str "dropdown" ∧ truthy selectedText then pvStr selectedText
  else if componentType = .str "dateRange" then
    if operator = .str "customDates" ∧ truthy value1 ∧ truthy value2 then
      "Date Range: " ++ pvStr value1 ++ " to " ++ pvStr value2
    else if operator = .str "previous365Days" then "Date Range: Previous 365 Days"
    else if operator = .str "previousMonth" then "Date Range: Previous Month"
    else if truthy value1 ∧ truthy value2 then
      "Date Range: " ++ pvStr value1 ++ " to " ++ pvStr value2
    else if truthy value1 then "Date Range: from " ++ pvStr value1
    else "Date Range: not specified"
  else if truthy selectedText then pvStr selectedText
  else if truthy value1 ∧ truthy value2 then pvStr value1 ++ " to " ++ pvStr value2
  else if truthy value1 then pvStr value1
  else "(no value specified)"

/-- `RewardGroupsReporterFixed.interpret_rule` (lines 245-292). -/
def interpret_rule (ruleDefs : List PDict) (rule : PDict) : String :=
  let rid := pyGet (asDict (pyGetD rule "ruleDefinition" (.dict []))) "id"
  if ¬ truthy rid then "Rule definition not found"
  else
    match get_rule_definition ruleDefs rid with
    | none => "Rule definition " ++ pvStr rid ++ " not found"
    | some ruleDef =>
      let ruleName := pvStr (pyGetD ruleDef "name" (.str ("Rule " ++ pvStr rid)))
      let valuesV := pyGetD rule "values" (.list [])
      if truthy valuesV then
        let valueTexts :=
          (asList valuesV).filterMap (fun vi =>
            let t := interpret_rule_value ruleDef (asDict vi)
            if t = "" then none else some t)
        match valueTexts with
        | [t] => ruleName ++ ": " ++ t
        | [] => ruleName ++ ": (no interpretable values)"
        | ts => ruleName ++ ": " ++ " AND ".intercalate ts
      else
        let condV := pyGetD rule "conditions" (.list [])
        if truthy condV then
          let conditionTexts := (asList condV).map (fun c => "Condition: " ++ pvStr c)
          let logic := (pvStr (pyGetD rule "logic" (.str "and"))).toUpper
          match conditionTexts with
          | [t] => ruleName ++ ": " ++ t
          | ts => ruleName ++ ": " ++ (" " ++ logic ++ " ").intercalate ts
        else ruleName

/-- The operator table of `ProductGroupsReporter.interpret_operator`
(lines 2430-2451); a code that is not in the table passes through. -/
def interpret_operator_pg (op : PVal) : PVal :=
  match op with
  | .str s =>
    .str (((([("isEqual", "equals"), ("isNotEqual", "does not equal"),
      ("isGreaterThan", "is greater than"), ("isLessThan", "is less than"),
      ("isGreaterThanOrEqualTo", "is greater than or equal to"),
      ("isLessThanOrEqualTo", "is less than or equal to"),
      ("isBetween", "is between"), ("customDates", "custom date range"),
      ("entireProgram", "entire program period"), ("currentDay", "current day"),
      ("previousDay", "previous day"), ("currentWeek", "current week"),
      ("previousWeek", "previous week"), ("currentMonth", "current month"),
      ("previousMonth", "previous month"), ("currentYear", "current year"),
      ("previousYear", "previous year")] : List (String × String)).find?
        (fun e => e.1 = s)).map Prod.snd).getD s)
  | v => v

/-- `ProductGroupsReporter.interpret_rule` (lines 2453-2484).  The date
formatting helper `format_date` (ISO parsing via `datetime`) is an
external collaborator here and is passed in as `fmt`; no theorem depends
on it. -/
def interpret_rule_pg (fmt : PVal → String) (ruleDefs : List PDict) (rule : PDict) : String :=
  let rid := pyGet (asDict (pyGet rule "ruleDefinition")) "id"
  match get_rule_definition ruleDefs rid with
  | none => "Unknown rule type (ID: " ++ pvStr rid ++ ")"
  | some ruleDef =>
    let ruleName := pvStr (pyGet ruleDef "name")
    let conditions :=
      (asList (pyGetD rule "values" (.list []))).filterMap (fun v =>
        let vd := asDict v
        match get_component_definition ruleDef (pyGet (asDict (pyGet vd "component")) "id") with
        | none => none
        | some comp =>
          let label := pvStr (pyGet comp "label")
          let operator := pvStr (interpret_operator_pg (pyGet vd "operator"))
          let conditionValue :=
            if truthy (pyGet vd "selectedText") then pvStr (pyGet vd "selectedText")
            else if truthy (pyGet vd "value1") ∧ truthy (pyGet vd "value2") then
              fmt (pyGet vd "value1") ++ " to " ++ fmt (pyGet vd "value2")
            else if truthy (pyGet vd "value1") then pvStr (pyGet vd "value1")
            else "Not specified"
          some (label ++ " " ++ operator ++ " " ++ conditionValue))
    match conditions with
    | [] => ruleName
    | cs => ruleName ++ ": " ++ " AND ".intercalate cs

/-- The rule loop of `generate_detailed_reward_groups` (lines 386-389):
one interpretation line per attached rule, siblings unaffected by any
single rule's outcome. -/
def ruleInterpretations (ruleDefs : List PDict) (rules : List PVal) : List String :=
  rules.map (fun r => interpret_rule ruleDefs (asDict r))

/-!
## Summary-row ordering
`RewardGroupsReporterFixed.generate_reward_groups_summary` (line 303)
sorts rows with `key=lambda x: int(x.get("id", 0))`;
`PromotionsReporterFinal.generate_promotions_summary` (line 1585) sorts
with `key=lambda x: (x.get("promotionType", ""), int(x.get("id", 0)))`.
Python's `sorted` is a stable sort by the key tuple; the embedding uses
insertion sort, which is also stable under a non-strict `≤` key order.
-/

/-- Python `int(v)` on the values the summary keys feed it: ints stay
ints, booleans coerce, numeric strings parse (a non-numeric argument
raises in Python and is outside the modelled input space). -/
def pyToInt : PVal → Int
  | .int z => z
  | .bool b => if b then 1 else 0
  | .str s => (s.toInt?).getD 0
  | _ => 0

/-- The reward-group row key `int(x.get("id", 0))`. -/
def rgIdKey (g : PDict) : Int :=
  pyToInt (pyGetD g "id" (.int 0))

/-- The promotion subtype component of the promotions row key,
`x.get("promotionType", "")` (string in well-formed records). -/
def promoTypeKey (p : PDict) : String :=
  match pyGetD p "promotionType" (.str "") with
  | .str s => s
  | _ => ""

/-- Python string comparison: lexicographic on code points (a proper
prefix is smaller). -/
def charListLt : List Char → List Char → Bool
  | _, [] => false
  | [], _ :: _ => true
  | c :: cs, d :: ds =>
    if c.toNat < d.toNat then true
    else if d.toNat < c.toNat then false
    else charListLt cs ds

/-- Python `a < b` on strings. -/
def pyStrLt (a b : String) : Bool :=
  charListLt a.data b.data

/-- Row order of the reward-groups summary table: ascending id. -/
def rgRowLe (a b : PDict) : Prop := rgIdKey a ≤ rgIdKey b

/-- Row order of the promotions summary table: Python's tuple order on
`(promotionType, id)` — subtype first, id second. -/
def promoRowLe (a b : PDict) : Prop :=
  pyStrLt (promoTypeKey a) (promoTypeKey b) = true ∨
    (promoTypeKey a = promoTypeKey b ∧ rgIdKey a ≤ rgIdKey b)

instance : DecidableRel rgRowLe := fun _ _ => Int.decLe _ _

instance : DecidableRel promoRowLe := fun _ _ => instDecidableOr

/-- The row sequence of the reward-groups summary table (line 303). -/
def rewardGroupsSummaryRows (gs : List PDict) : List PDict :=
  List.insertionSort rgRowLe gs

/-- The row sequence of the promotions summary table (line 1585). -/
def promotionsSummaryRows (ps : List PDict) : List PDict :=
  List.insertionSort promoRowLe ps

instance : IsTotal PDict rgRowLe :=
  ⟨fun a b => Int.le_total (rgIdKey a) (rgIdKey b)⟩

instance : IsTrans PDict rgRowLe :=
  ⟨fun _ _ _ h1 h2 => le_trans h1 h2⟩

/-- Two char lists neither of which is lexicographically below the other
are equal. -/
theorem charListLt_antisymm :
    ∀ as bs, charListLt as bs = false → charListLt bs as = false → as = bs := by
  intro as
  induction as with
  | nil =>
    intro bs h1 _
    cases bs with
    | nil => rfl
    | cons d ds => simp [charListLt] at h1
  | cons c cs ih =>
    intro bs h1 h2
    cases bs with
    | nil => simp [charListLt] at h2
    | cons d ds =>
      simp only [charListLt] at h1 h2
      by_cases hcd : c.toNat < d.toNat
      · simp [hcd] at h1
      · by_cases hdc : d.toNat < c.toNat
        · simp [hdc, hcd] at h2
        · have hv : c.toNat = d.toNat := Nat.le_antisymm (Nat.le_of_not_lt hdc) (Nat.le_of_not_lt hcd)
          have hc : c = d := Char.eq_of_val_eq (UInt32.ext hv)
          subst hc
          simp only [hcd, if_neg, Nat.lt_irrefl, if_false] at h1 h2
          exact congrArg (c :: ·) (ih ds h1 h2)

/-- Lexicographic comparison of char lists is transitive. -/
theorem charListLt_trans :
    ∀ as bs cs, charListLt as bs = true → charListLt bs cs = true → charListLt as cs = true := by
  intro as
  induction as with
  | nil =>
    intro bs cs h1 h2
    cases bs with
    | nil => exact h2
    | cons d ds =>
      cases cs with
      | nil => simp [charListLt] at h2
      | cons e es => simp [charListLt]
  | cons c cs' ih =>
    intro bs cs h1 h2
    cases bs with
    | nil => simp [charListLt] at h1
    | cons d ds =>
      cases cs with
      | nil => simp [charListLt] at h2
      | cons e es =>
        simp only [charListLt] at h1 h2 ⊢
        by_cases hcd : c.toNat < d.toNat
        · by_cases hde : d.toNat < e.toNat
          · simp [Nat.lt_trans hcd hde]
          · by_cases hed : e.toNat < d.toNat
            · simp [hde, hed] at h2
            · have : d.toNat = e.toNat :=
                Nat.le_antisymm (Nat.le_of_not_lt hed) (Nat.le_of_not_lt hde)
              simp [this ▸ hcd]
        · by_cases hdc : d.toNat < c.toNat
          · simp [hcd, hdc] at h1
          · have hv : c.toNat = d.toNat :=
              Nat.le_antisymm (Nat.le_of_not_lt hdc) (Nat.le_of_not_lt hcd)
            simp only [hcd, if_neg, hdc, if_false] at h1
            by_cases hde : d.toNat < e.toNat
            · simp [hv ▸ hde]
            · by_cases hed : e.toNat < d.toNat
              · simp [hde, hed] at h2
              · simp only [hde, if_neg, hed, if_false] at h2
                have hce : ¬ c.toNat < e.toNat := by
                  rw [hv]; exact hde
                have hec : ¬ e.toNat < c.toNat := by
                  rw [hv]; exact hed
                simp only [hce, if_neg, hec, if_false]
                exact ih ds es h1 h2

instance : IsTotal PDict promoRowLe where
  total a b := by
    cases hab : pyStrLt (promoTypeKey a) (promoTypeKey b)
    · cases hba : pyStrLt (promoTypeKey b) (promoTypeKey a)
      · have he : promoTypeKey a = promoTypeKey b := by
          have := charListLt_antisymm (promoTypeKey a).data (promoTypeKey b).data hab hba
          exact String.ext this
        rcases Int.le_total (rgIdKey a) (rgIdKey b) with h2 | h2
        · exact Or.inl (Or.inr ⟨he, h2⟩)
        · exact Or.inr (Or.inr ⟨he.symm, h2⟩)
      · exact Or.inr (Or.inl hba)
    · exact Or.inl (Or.inl hab)

instance : IsTrans PDict promoRowLe where
  trans a b c h1 h2 := by
    rcases h1 with h1 | ⟨e1, i1⟩
    · rcases h2 with h2 | ⟨e2, i2⟩
      · exact Or.inl (charListLt_trans _ _ _ h1 h2)
      · exact Or.inl (e2 ▸ h1)
    · rcases h2 with h2 | ⟨e2, i2⟩
      · exact Or.inl (e1 ▸ h2)
      · exact Or.inr ⟨e1.trans e2, le_trans i1 i2⟩

/-!
## Dictionary lemmas
-/

/-- Reading after writing: `dset` affects exactly the written key. -/
theorem dget_dset (d : PDict) (k : String) (v : PVal) (k' : String) :
    dget (dset d k v) k' = if k' = k then some v else dget d k' := by
  induction d with
  | nil =>
    by_cases h : k' = k <;> simp [dset, dget, h]
  | cons e rest ih =>
    obtain ⟨k0, v0⟩ := e
    by_cases hk : k = k0
    · subst hk
      by_cases h : k' = k <;> simp [dset, dget, h]
    · by_cases h : k' = k0
      · subst h
        have : ¬ k' = k := fun hh => hk hh.symm
        simp [dset, hk, dget, this]
      · simp [dset, hk, dget, h, ih]

/-- A key outside a dict's key list reads as absent. -/
theorem dget_eq_none_of_not_mem (b : PDict) (k : String) (h : k ∉ b.map Prod.fst) :
    dget b k = none := by
  induction b with
  | nil => rfl
  | cons e rest ih =>
    obtain ⟨k0, v0⟩ := e
    simp only [List.map_cons, List.mem_cons] at h
    push_neg at h
    simp only [dget, if_neg h.1]
    exact ih h.2

/-- Reading a dict after a Python `update`: an updated key returns the
update's value, every other key is untouched (the source of the update
has unique keys). -/
theorem dget_dupdate (b : PDict) (hb : (b.map Prod.fst).Nodup) (a : PDict) (k : String) :
    dget (dupdate a b) k = match dget b k with
      | some v => some v
      | none => dget a k := by
  induction b generalizing a with
  | nil => simp [dupdate, dget]
  | cons e rest ih =>
    obtain ⟨k0, v0⟩ := e
    simp only [List.map_cons, List.nodup_cons] at hb
    have step : dupdate a ((k0, v0) :: rest) = dupdate (dset a k0 v0) rest := by
      simp [dupdate]
    rw [step]
    by_cases h : k = k0
    · subst h
      have hnot : dget rest k = none :=
        dget_eq_none_of_not_mem rest k hb.1
      rw [ih hb.2 (dset a k v0)]
      simp [hnot, dget, dget_dset]
    · rw [ih hb.2 (dset a k0 v0)]
      simp only [dget, if_neg h]
      cases hr : dget rest k with
      | some v => simp
      | none => simp [dget_dset, h]

/-!
## Merge lemmas
-/

/-- A merge-loop step only writes the key it visits. -/
theorem mergeStep_fst_ne (s : PDict × PDict) (e : String × PVal) (k : String)
    (h : e.1 ≠ k) : dget (mergeStep s e).1 k = dget s.1 k := by
  obtain ⟨m, l⟩ := s
  obtain ⟨key, value⟩ := e
  have h' : key ≠ k := h
  simp only [mergeStep]
  cases hm : dget m key with
  | none => simp [dget_dset, Ne.symm h']
  | some mv =>
    by_cases h1 : mv = PVal.null
    · simp [h1, dget_dset, Ne.symm h']
    · by_cases h2 : key = "statistics" ∧ value ≠ PVal.null
      · have hs : "statistics" ≠ k := h2.1 ▸ h'
        by_cases h3 : truthy mv
        · simp [h1, h2, h3, dget_dset, Ne.symm hs]
        · simp [h1, h2, h3, dget_dset, Ne.symm hs]
      · simp [h1, h2]

/-- A merge-loop step visiting key `k` rewrites the merged dict at `k`
according to `mergeVal`. -/
theorem mergeStep_fst_eq (s : PDict × PDict) (k : String) (v : PVal) :
    dget (mergeStep s (k, v)).1 k = mergeVal k (dget s.1 k) v := by
  obtain ⟨m, l⟩ := s
  simp only [mergeStep, mergeVal]
  cases hm : dget m k with
  | none => simp [dget_dset]
  | some mv =>
    by_cases h1 : mv = PVal.null
    · simp [h1, dget_dset]
    · by_cases h2 : k = "statistics" ∧ v ≠ PVal.null
      · by_cases h3 : truthy mv
        · simp [h1, h2, h3, dget_dset, h2.1]
        · simp [h1, h2, h3, dget_dset, h2.1]
      · simp [h1, h2, hm]

/-- A merge-loop step never touches the listing at keys other than
`"statistics"`. -/
theorem mergeStep_snd_ne (s : PDict × PDict) (e : String × PVal) (k : String)
    (h : k ≠ "statistics") : dget (mergeStep s e).2 k = dget s.2 k := by
  obtain ⟨m, l⟩ := s
  obtain ⟨key, value⟩ := e
  simp only [mergeStep]
  cases hm : dget m key with
  | none => simp
  | some mv =>
    by_cases h1 : mv = PVal.null
    · simp [h1]
    · by_cases h2 : key = "statistics" ∧ value ≠ PVal.null
      · by_cases h3 : truthy mv
        · by_cases h4 : dget l "statistics" = some mv
          · simp [h1, h2, h3, h4, dget_dset, h]
          · simp [h1, h2, h3, h4]
        · simp [h1, h2, h3]
      · simp [h1, h2]

/-- A merge-loop step for a key other than `"statistics"` leaves the
listing untouched. -/
theorem mergeStep_snd_eq_of_ne (s : PDict × PDict) (e : String × PVal)
    (h : e.1 ≠ "statistics") : (mergeStep s e).2 = s.2 := by
  obtain ⟨m, l⟩ := s
  obtain ⟨key, value⟩ := e
  simp only [mergeStep]
  cases hm : dget m key with
  | none => simp
  | some mv =>
    by_cases h1 : mv = PVal.null
    · simp [h1]
    · have h2 : ¬ (key = "statistics" ∧ value ≠ PVal.null) := fun hh => h hh.1
      simp [h1, h2]

/-- Characterisation of the merged dict: with unique detail keys, the
merge loop reads at `k` as `mergeVal` applied to the initial value when
the detail carries `k`, and as the initial value otherwise. -/
theorem dget_mergeLoop_fst (detail : PDict) (hD : (detail.map Prod.fst).Nodup)
    (s : PDict × PDict) (k : String) :
    dget (mergeLoop s detail).1 k = match dget detail k with
      | none => dget s.1 k
      | some v => mergeVal k (dget s.1 k) v := by
  induction detail generalizing s with
  | nil => simp [mergeLoop, dget]
  | cons e rest ih =>
    obtain ⟨k0, v0⟩ := e
    simp only [List.map_cons, List.nodup_cons] at hD
    simp only [mergeLoop]
    by_cases h : k = k0
    · subst h
      have hnot : dget rest k = none := dget_eq_none_of_not_mem rest k hD.1
      rw [ih hD.2 (mergeStep s (k, v0))]
      simp [hnot, dget, mergeStep_fst_eq]
    · rw [ih hD.2 (mergeStep s (k0, v0))]
      have hne : (k0, v0).1 ≠ k := fun hh => h hh.symm
      simp only [dget, if_neg h]
      cases hr : dget rest k with
      | some v => simp [mergeStep_fst_ne _ _ _ hne]
      | none => simp [mergeStep_fst_ne _ _ _ hne]

/-- The merge loop never touches the listing at keys other than
`"statistics"`. -/
theorem dget_mergeLoop_snd (detail : PDict) (s : PDict × PDict) (k : String)
    (h : k ≠ "statistics") : dget (mergeLoop s detail).2 k = dget s.2 k := by
  induction detail generalizing s with
  | nil => rfl
  | cons e rest ih =>
    simp only [mergeLoop]
    rw [ih (mergeStep s e)]
    exact mergeStep_snd_ne s e k h

/-- If the detail has no `"statistics"` key at all, the merge loop
leaves the listing exactly as it was. -/
theorem mergeLoop_snd_of_no_stats (detail : PDict)
    (h : "statistics" ∉ detail.map Prod.fst) (s : PDict × PDict) :
    (mergeLoop s detail).2 = s.2 := by
  induction detail generalizing s with
  | nil => rfl
  | cons e rest ih =>
    simp only [List.map_cons, List.mem_cons] at h
    push_neg at h
    simp only [mergeLoop]
    rw [ih h.2 (mergeStep s e)]
    exact mergeStep_snd_eq_of_ne s e (fun hh => h.1 hh.symm)

/-- Updating a non-null value never produces null. -/
theorem pvUpdate_ne_null (mv v : PVal) (h : mv ≠ PVal.null) :
    pvUpdate mv v ≠ PVal.null := by
  cases mv with
  | null => exact absurd rfl h
  | dict a => cases v <;> simp [pvUpdate]
  | bool b => simp [pvUpdate]
  | int z => simp [pvUpdate]
  | str s => simp [pvUpdate]
  | list xs => simp [pvUpdate]

/-- `mergeVal` starting from a non-null current value or fed a non-null
detail value never yields null. -/
theorem mergeVal_ne_null (k : String) (cur : Option PVal) (v : PVal)
    (h : (∃ w, cur = some w ∧ w ≠ PVal.null) ∨ v ≠ PVal.null) :
    ∃ w, mergeVal k cur v = some w ∧ w ≠ PVal.null := by
  cases cur with
  | none =>
    rcases h with ⟨w, hw, _⟩ | hv
    · exact absurd hw (by simp)
    · exact ⟨v, rfl, hv⟩
  | some mv =>
    by_cases h1 : mv = PVal.null
    · rcases h with ⟨w, hw, hwn⟩ | hv
      · rw [Option.some.injEq] at hw
        exact absurd (hw ▸ h1) hwn
      · exact ⟨v, by simp [mergeVal, h1], hv⟩
    · by_cases h2 : k = "statistics" ∧ v ≠ PVal.null
      · by_cases h3 : truthy mv
        · exact ⟨pvUpdate mv v, by simp [mergeVal, h1, h2, h3],
            pvUpdate_ne_null mv v h1⟩
        · exact ⟨v, by simp [mergeVal, h1, h2, h3], h2.2⟩
      · exact ⟨mv, by simp [mergeVal, h1, h2], h1⟩

/-- Top-level characterisation of `merge_reward_group_data`'s merged
result (the loop starting from the listing on both components). -/
theorem dget_merge_rgd (L D : PDict) (hD : (D.map Prod.fst).Nodup) (k : String) :
    dget (merge_reward_group_data L D).1 k = match dget D k with
      | none => dget L k
      | some v => mergeVal k (dget L k) v :=
  dget_mergeLoop_fst D hD (L, L) k

/-- When both records carry a statistics dict, the merged statistics is
the Python `update` of the listing's dict by the detail's (the
degenerate empty-listing case takes the assignment branch, which agrees
with `dupdate` from the empty dict). -/
theorem merged_stats (L D ls ds : PDict)
    (hD : (D.map Prod.fst).Nodup)
    (hL : dget L "statistics" = some (PVal.dict ls))
    (hDs : dget D "statistics" = some (PVal.dict ds)) :
    dget (merge_reward_group_data L D).1 "statistics" =
      some (if ls.isEmpty then PVal.dict ds else PVal.dict (dupdate ls ds)) := by
  have h := dget_merge_rgd L D hD "statistics"
  rw [hDs, hL] at h
  rw [h]
  by_cases hls : ls.isEmpty
  · simp [mergeVal, truthy, hls, pvUpdate]
  · simp [mergeVal, truthy, hls, pvUpdate]

/-- Per-key content of the merged statistics: the detail's entry wins
whenever the detail carries the key (null included), and the listing's
entry is kept otherwise. -/
theorem merged_stats_per_key (L D ls ds : PDict) (k : String)
    (hD : (D.map Prod.fst).Nodup) (hds : (ds.map Prod.fst).Nodup)
    (hL : dget L "statistics" = some (PVal.dict ls))
    (hDs : dget D "statistics" = some (PVal.dict ds)) :
    dget (asDict (pyGet (merge_reward_group_data L D).1 "statistics")) k =
      match dget ds k with
      | some v => some v
      | none => dget ls k := by
  have h := merged_stats L D ls ds hD hL hDs
  by_cases hls : ls.isEmpty
  · rw [if_pos hls] at h
    have hle : ls = [] := List.isEmpty_iff.mp hls
    subst hle
    simp only [pyGet, h, Option.getD, asDict]
    cases hr : dget ds k with
    | some v => simp
    | none => simp [hr, dget]
  · rw [if_neg hls] at h
    simp only [pyGet, h, Option.getD, asDict]
    rw [dget_dupdate ds hds ls k]

/-- Listing-side absence safety of the reward-group merge at the top
level: a non-null listing field is never merged away to null/absent. -/
theorem merge_rgd_safe_listing (L D : PDict) (k : String) (v : PVal)
    (hD : (D.map Prod.fst).Nodup) (hL : dget L k = some v) (hv : v ≠ PVal.null) :
    ∃ w, dget (merge_reward_group_data L D).1 k = some w ∧ w ≠ PVal.null := by
  rw [dget_merge_rgd L D hD k]
  cases hdk : dget D k with
  | none => exact ⟨v, hL, hv⟩
  | some dv =>
    rw [hL]
    exact mergeVal_ne_null k (some v) dv (Or.inl ⟨v, rfl, hv⟩)

/-- Detail-side absence safety of the reward-group merge at the top
level. -/
theorem merge_rgd_safe_detail (L D : PDict) (k : String) (v : PVal)
    (hD : (D.map Prod.fst).Nodup) (hDk : dget D k = some v) (hv : v ≠ PVal.null) :
    ∃ w, dget (merge_reward_group_data L D).1 k = some w ∧ w ≠ PVal.null := by
  rw [dget_merge_rgd L D hD k, hDk]
  exact mergeVal_ne_null k (dget L k) v (Or.inr hv)

/-- The promotions merge runs exactly the reward-group merge loop before
its `promotionType` fix-up. -/
theorem mergeLoop_eq_merge_rgd (L D : PDict) :
    mergeLoop (L, L) D = merge_reward_group_data L D := rfl

/-- Listing-side absence safety of the promotions merge at the top
level, assuming the listing's `"type"` tag (which the source copies into
`promotionType` even when null) is absent or non-null. -/
theorem merge_promo_safe_listing (L D : PDict) (k : String) (v : PVal)
    (hD : (D.map Prod.fst).Nodup)
    (htype : ∀ t, dget L "type" = some t → t ≠ PVal.null)
    (hL : dget L k = some v) (hv : v ≠ PVal.null) :
    ∃ w, dget (merge_promotion_data L D).1 k = some w ∧ w ≠ PVal.null := by
  simp only [merge_promotion_data]
  rcases hty : dget L "type" with _ | t
  · simp only [mergeLoop_eq_merge_rgd]
    exact merge_rgd_safe_listing L D k v hD hL hv
  · simp only [mergeLoop_eq_merge_rgd, dget_dset]
    by_cases hk : k = "promotionType"
    · simp only [hk, if_pos rfl]
      exact ⟨t, rfl, htype t hty⟩
    · simp only [if_neg hk]
      exact merge_rgd_safe_listing L D k v hD hL hv

/-- Detail-side absence safety of the promotions merge at the top
level, under the same `"type"` assumption. -/
theorem merge_promo_safe_detail (L D : PDict) (k : String) (v : PVal)
    (hD : (D.map Prod.fst).Nodup)
    (htype : ∀ t, dget L "type" = some t → t ≠ PVal.null)
    (hDk : dget D k = some v) (hv : v ≠ PVal.null) :
    ∃ w, dget (merge_promotion_data L D).1 k = some w ∧ w ≠ PVal.null := by
  simp only [merge_promotion_data]
  rcases hty : dget L "type" with _ | t
  · simp only [mergeLoop_eq_merge_rgd]
    exact merge_rgd_safe_detail L D k v hD hDk hv
  · simp only [mergeLoop_eq_merge_rgd, dget_dset]
    by_cases hk : k = "promotionType"
    · simp only [hk, if_pos rfl]
      exact ⟨t, rfl, htype t hty⟩
    · simp only [if_neg hk]
      exact merge_rgd_safe_detail L D k v hD hDk hv

/-!
## Claim C1 — merge absence-safety
-/

/-- C1 counterexample: the claim as stated is false.  The listing
supplies the non-null statistics value `a = 1`, yet the merged record's
statistics maps `a` to null, because `merged["statistics"].update`
copies the detail's null entry over it. -/
theorem merge_nulls_listing_stat_value :
    (merge_reward_group_data
        [("statistics", PVal.dict [("a", PVal.int 1)])]
        [("statistics", PVal.dict [("a", PVal.null)])]).1
      = [("statistics", PVal.dict [("a", PVal.null)])] := by decide

/-- C1 (corrected): the merge never yields a null/absent *top-level*
field when either input supplied a non-null value for it — for
`merge_reward_group_data` unconditionally, and for
`merge_promotion_data` provided the listing's `"type"` tag is absent or
non-null (the source copies even a null `"type"` over `promotionType`).
Inside the statistics sub-mapping a non-null *detail* value always
survives, but — contrary to the claim — a non-null listing value is
overwritten when the detail maps the same key to null. -/
theorem merge_absence_safety_amended :
    (∀ L D k v, (D.map Prod.fst).Nodup →
      dget L k = some v → v ≠ PVal.null →
      ∃ w, dget (merge_reward_group_data L D).1 k = some w ∧ w ≠ PVal.null)
  ∧ (∀ L D k v, (D.map Prod.fst).Nodup →
      dget D k = some v → v ≠ PVal.null →
      ∃ w, dget (merge_reward_group_data L D).1 k = some w ∧ w ≠ PVal.null)
  ∧ (∀ L D k v, (D.map Prod.fst).Nodup →
      (∀ t, dget L "type" = some t → t ≠ PVal.null) →
      dget L k = some v → v ≠ PVal.null →
      ∃ w, dget (merge_promotion_data L D).1 k = some w ∧ w ≠ PVal.null)
  ∧ (∀ L D k v, (D.map Prod.fst).Nodup →
      (∀ t, dget L "type" = some t → t ≠ PVal.null) →
      dget D k = some v → v ≠ PVal.null →
      ∃ w, dget (merge_promotion_data L D).1 k = some w ∧ w ≠ PVal.null)
  ∧ (∀ L D ls ds k v, (D.map Prod.fst).Nodup → (ds.map Prod.fst).Nodup →
      dget L "statistics" = some (PVal.dict ls) →
      dget D "statistics" = some (PVal.dict ds) →
      dget ds k = some v → v ≠ PVal.null →
      dget (asDict (pyGet (merge_reward_group_data L D).1 "statistics")) k = some v) := by
  refine ⟨?_, ?_, ?_, ?_, ?_⟩
  · exact fun L D k v hD hL hv => merge_rgd_safe_listing L D k v hD hL hv
  · exact fun L D k v hD hDk hv => merge_rgd_safe_detail L D k v hD hDk hv
  · exact fun L D k v hD ht hL hv => merge_promo_safe_listing L D k v hD ht hL hv
  · exact fun L D k v hD ht hDk hv => merge_promo_safe_detail L D k v hD ht hDk hv
  · intro L D ls ds k v hD hds hL hDs hk _
    rw [merged_stats_per_key L D ls ds k hD hds hL hDs, hk]

/-- C1 witness: the amended theorem applied at concrete inputs. -/
theorem merge_absence_safety_amended_witness :
    (∃ w, dget (merge_reward_group_data
        [("name", PVal.str "G")] [("status", PVal.str "active")]).1 "name"
      = some w ∧ w ≠ PVal.null)
  ∧ (∃ w, dget (merge_promotion_data
        [("type", PVal.str "transactionBonus")] [("id", PVal.int 3)]).1 "id"
      = some w ∧ w ≠ PVal.null)
  ∧ dget (asDict (pyGet (merge_reward_group_data
        [("statistics", PVal.dict [("a", PVal.int 1)])]
        [("statistics", PVal.dict [("b", PVal.int 2)])]).1 "statistics")) "b"
      = some (PVal.int 2) := by
  refine ⟨?_, ?_, ?_⟩
  · exact merge_absence_safety_amended.1
      [("name", PVal.str "G")] [("status", PVal.str "active")]
      "name" (PVal.str "G") (by decide) (by decide) (by decide)
  · exact merge_absence_safety_amended.2.2.2.1
      [("type", PVal.str "transactionBonus")] [("id", PVal.int 3)]
      "id" (PVal.int 3) (by decide) (by decide) (by decide) (by decide)
  · exact merge_absence_safety_amended.2.2.2.2
      [("statistics", PVal.dict [("a", PVal.int 1)])]
      [("statistics", PVal.dict [("b", PVal.int 2)])]
      [("a", PVal.int 1)] [("b", PVal.int 2)]
      "b" (PVal.int 2) (by decide) (by decide) (by decide) (by decide)
      (by decide) (by decide)

/-!
## Claim C3 — statistics merged per key
-/

/-- C3 counterexample: the claim as stated is false.  With
`listing.statistics = \x7ba: 5\x7d` and `detail.statistics = \x7ba: None\x7d`,
the claim requires the listing's `5` to be kept (detail wins only when
non-null), but the merged statistics maps `a` to null. -/
theorem statistics_merge_null_overwrites :
    dget (asDict (pyGet (merge_reward_group_data
        [("statistics", PVal.dict [("a", PVal.int 5)])]
        [("statistics", PVal.dict [("a", PVal.null)])]).1 "statistics")) "a"
      = some PVal.null := by decide

/-- C3 (corrected): when both records carry a statistics dict, the
merged statistics is computed key by key, with keys present on only one
side included — but the detail's value wins *unconditionally* (Python
`dict.update`), so a null detail value replaces the listing's value
rather than being ignored. -/
theorem statistics_merge_per_key_amended
    (L D ls ds : PDict) (k : String)
    (hD : (D.map Prod.fst).Nodup) (hds : (ds.map Prod.fst).Nodup)
    (hL : dget L "statistics" = some (PVal.dict ls))
    (hDs : dget D "statistics" = some (PVal.dict ds)) :
    dget (asDict (pyGet (merge_reward_group_data L D).1 "statistics")) k =
      match dget ds k with
      | some v => some v
      | none => dget ls k :=
  merged_stats_per_key L D ls ds k hD hds hL hDs

/-- C3 witness: the amended per-key law evaluated on the spec's own
example `listing.statistics = \x7ba: 1\x7d`, `detail.statistics =
\x7ba: 2, b: 3\x7d`. -/
theorem statistics_merge_per_key_amended_witness :
    dget (asDict (pyGet (merge_reward_group_data
        [("statistics", PVal.dict [("a", PVal.int 1)])]
        [("statistics", PVal.dict [("a", PVal.int 2), ("b", PVal.int 3)])]).1
      "statistics")) "a" = some (PVal.int 2) := by
  have h := statistics_merge_per_key_amended
    [("statistics", PVal.dict [("a", PVal.int 1)])]
    [("statistics", PVal.dict [("a", PVal.int 2), ("b", PVal.int 3)])]
    [("a", PVal.int 1)] [("a", PVal.int 2), ("b", PVal.int 3)]
    "a" (by decide) (by decide) (by decide) (by decide)
  rw [h]
  decide

/-!
## Claim C6 — merge does not mutate its inputs
-/

/-- C6 counterexample: the claim as stated is false.  Merging mutates
the listing's nested statistics dict in place: after the call the
listing record carries the detail's `b = 2` entry. -/
theorem merge_mutates_listing_statistics :
    (merge_reward_group_data
        [("statistics", PVal.dict [("a", PVal.int 1)])]
        [("statistics", PVal.dict [("b", PVal.int 2)])]).2
      = [("statistics", PVal.dict [("a", PVal.int 1), ("b", PVal.int 2)])]
  ∧ (merge_reward_group_data
        [("statistics", PVal.dict [("a", PVal.int 1)])]
        [("statistics", PVal.dict [("b", PVal.int 2)])]).2
      ≠ [("statistics", PVal.dict [("a", PVal.int 1)])] := by
  exact ⟨by decide, by decide⟩

/-- C6 (corrected): the merge produces a new top-level record and the
listing is left unchanged at every key other than `"statistics"`; it is
left entirely unchanged whenever the detail carries no statistics entry.
The one exception, forced by the counterexample, is the listing's nested
statistics dict, which is updated in place when both sides carry one. -/
theorem merge_frame_amended :
    (∀ L D k, k ≠ "statistics" →
      dget (merge_reward_group_data L D).2 k = dget L k)
  ∧ (∀ L D, "statistics" ∉ D.map Prod.fst →
      (merge_reward_group_data L D).2 = L)
  ∧ (∀ L D k, k ≠ "statistics" →
      dget (merge_promotion_data L D).2 k = dget L k)
  ∧ (∀ L D, "statistics" ∉ D.map Prod.fst →
      (merge_promotion_data L D).2 = L) := by
  have hsnd : ∀ L D : PDict, (merge_promotion_data L D).2
      = (merge_reward_group_data L D).2 := by
    intro L D
    simp only [merge_promotion_data]
    rcases hty : dget L "type" with _ | t <;> rfl
  refine ⟨?_, ?_, ?_, ?_⟩
  · exact fun L D k hk => dget_mergeLoop_snd D (L, L) k hk
  · exact fun L D h => mergeLoop_snd_of_no_stats D h (L, L)
  · intro L D k hk
    rw [hsnd L D]
    exact dget_mergeLoop_snd D (L, L) k hk
  · intro L D h
    rw [hsnd L D]
    exact mergeLoop_snd_of_no_stats D h (L, L)

/-- C6 witness: the amended frame property at concrete inputs. -/
theorem merge_frame_amended_witness :
    dget (merge_reward_group_data
        [("name", PVal.str "G"), ("statistics", PVal.dict [("a", PVal.int 1)])]
        [("statistics", PVal.dict [("b", PVal.int 2)])]).2 "name"
      = some (PVal.str "G")
  ∧ (merge_promotion_data
        [("name", PVal.str "P")] [("id", PVal.int 4)]).2
      = [("name", PVal.str "P")] := by
  refine ⟨?_, ?_⟩
  · have h := merge_frame_amended.1
      [("name", PVal.str "G"), ("statistics", PVal.dict [("a", PVal.int 1)])]
      [("statistics", PVal.dict [("b", PVal.int 2)])] "name" (by decide)
    rw [h]
    decide
  · exact merge_frame_amended.2.2.2 [("name", PVal.str "P")] [("id", PVal.int 4)]
      (by decide)

/-!
## Pagination lemmas
-/

/-- A single page concatenated. -/
theorem concatPages_one (d : Nat → List PDict) (s : Nat) :
    concatPages d s 1 = d s := by
  simp [concatPages, List.range']

/-- Peeling the first page off a concatenation. -/
theorem concatPages_succ (d : Nat → List PDict) (s n : Nat) :
    concatPages d s (n + 1) = d s ++ concatPages d (s + 1) n := by
  simp [concatPages, List.range'_succ]

/-- Run of the reward-group page loop when page `N` is the first page
with fewer than `pp` records: every page through `N` is requested once,
nothing more, and no warning fires. -/
theorem rgLoop_short (srv : RGServer) (pp : Nat) (d : Nat → List PDict) (N : Nat)
    (hN : (d N).length < pp) :
    ∀ n page fuel, page + n = N → n < fuel →
    (∀ i, page ≤ i → i ≤ N → srv.paged i = some (d i)) →
    (∀ i, page ≤ i → i < N → pp ≤ (d i).length ∧ d i ≠ []) →
    rgLoop srv pp page fuel = ⟨concatPages d page (n + 1), n + 1, false, none⟩ := by
  intro n
  induction n with
  | zero =>
    intro page fuel hpn hf hp hfull
    obtain ⟨f, rfl⟩ : ∃ f, fuel = f + 1 :=
      ⟨fuel - 1, by omega⟩
    have hpage : page = N := by omega
    subst hpage
    have hsrv : srv.paged page = some (d page) := hp page le_rfl le_rfl
    rw [concatPages_one]
    simp only [rgLoop, hsrv]
    by_cases hnil : d page = []
    · simp [hnil]
    · simp [hnil, hN]
  | succ n ih =>
    intro page fuel hpn hf hp hfull
    obtain ⟨f, rfl⟩ : ∃ f, fuel = f + 1 :=
      ⟨fuel - 1, by omega⟩
    have hlt : page < N := by omega
    have hsrv : srv.paged page = some (d page) := hp page le_rfl (by omega)
    have hthis := hfull page le_rfl hlt
    have hr := ih (page + 1) f (by omega) (by omega)
      (fun i h1 h2 => hp i (by omega) h2)
      (fun i h1 h2 => hfull i (by omega) h2)
    simp only [rgLoop, hsrv, if_neg hthis.2, if_neg (Nat.not_lt.mpr hthis.1), hr]
    rw [concatPages_succ d page (n + 1)]

/-- Run of the reward-group page loop against a server whose pages are
all full: the loop exhausts its entire budget and the max-page warning
fires. -/
theorem rgLoop_full (srv : RGServer) (pp : Nat) (d : Nat → List PDict) :
    ∀ fuel page,
    (∀ i, page ≤ i → srv.paged i = some (d i) ∧ pp ≤ (d i).length ∧ d i ≠ []) →
    rgLoop srv pp page fuel = ⟨concatPages d page fuel, fuel, true, none⟩ := by
  intro fuel
  induction fuel with
  | zero =>
    intro page hp
    simp [rgLoop, concatPages, List.range']
  | succ f ih =>
    intro page hp
    have h := hp page le_rfl
    have hr := ih (page + 1) (fun i hi => hp i (by omega))
    simp only [rgLoop, h.1, if_neg h.2.2, if_neg (Nat.not_lt.mpr h.2.1), hr]
    rw [concatPages_succ]

/-- The reward-group page loop never issues more requests than it has
fuel (i.e. than the page budget allows). -/
theorem rgLoop_calls_le (srv : RGServer) (pp : Nat) :
    ∀ fuel page, (rgLoop srv pp page fuel).calls ≤ fuel := by
  intro fuel
  induction fuel with
  | zero => intro page; simp [rgLoop]
  | succ f ih =>
    intro page
    simp only [rgLoop]
    cases h : srv.paged page with
    | none =>
      by_cases h1 : page = 1
      · cases srv.unpaged <;> simp [h1]
      · simp [h1]
    | some data =>
      by_cases h2 : data = []
      · simp [h2]
      · by_cases h3 : data.length < pp
        · simp [h2, h3]
        · simp only [if_neg h2, if_neg h3]
          have := ih (page + 1)
          omega

/-- Run of the promotions page loop when page `N` is the first page with
fewer than `pp` records and fuel is at least `N`. -/
theorem promoLoop_short (srv : Nat → Option (List PDict)) (pp : Nat)
    (d : Nat → List PDict) (N : Nat) (hN : (d N).length < pp) :
    ∀ n page fuel, page + n = N → n < fuel →
    (∀ i, page ≤ i → i ≤ N → srv i = some (d i)) →
    (∀ i, page ≤ i → i < N → pp ≤ (d i).length ∧ d i ≠ []) →
    promoLoop srv pp page fuel = some (concatPages d page (n + 1), n + 1) := by
  intro n
  induction n with
  | zero =>
    intro page fuel hpn hf hp hfull
    obtain ⟨f, rfl⟩ : ∃ f, fuel = f + 1 := ⟨fuel - 1, by omega⟩
    have hpage : page = N := by omega
    subst hpage
    have hsrv : srv page = some (d page) := hp page le_rfl le_rfl
    rw [concatPages_one]
    simp only [promoLoop, hsrv, Option.getD]
    by_cases hnil : d page = []
    · simp [hnil]
    · simp [hnil, hN]
  | succ n ih =>
    intro page fuel hpn hf hp hfull
    obtain ⟨f, rfl⟩ : ∃ f, fuel = f + 1 := ⟨fuel - 1, by omega⟩
    have hlt : page < N := by omega
    have hsrv : srv page = some (d page) := hp page le_rfl (by omega)
    have hthis := hfull page le_rfl hlt
    have hr := ih (page + 1) f (by omega) (by omega)
      (fun i h1 h2 => hp i (by omega) h2)
      (fun i h1 h2 => hfull i (by omega) h2)
    simp only [promoLoop, hsrv, Option.getD, if_neg hthis.2,
      if_neg (Nat.not_lt.mpr hthis.1), hr]
    rw [concatPages_succ d page (n + 1)]

/-- Against a server whose every page is full, the promotions loop never
finishes, whatever the fuel: the source's `while True` has no page
budget. -/
theorem promoLoop_full_none (srv : Nat → Option (List PDict)) (pp : Nat)
    (hfull : ∀ i, pp ≤ ((srv i).getD []).length ∧ (srv i).getD [] ≠ []) :
    ∀ fuel page, promoLoop srv pp page fuel = none := by
  intro fuel
  induction fuel with
  | zero => intro page; rfl
  | succ f ih =>
    intro page
    have h := hfull page
    simp only [promoLoop, if_neg h.2, if_neg (Nat.not_lt.mpr h.1), ih (page + 1)]

/-!
## Claim C2 — pagination termination and dedup
-/

/-- C2 counterexample: the claim as stated is false for
`fetch_all_promotions`, which returns the raw concatenation of the
pages without deduplicating by id — the duplicate `id = 7` record
survives. -/
theorem promotions_fetch_no_dedup :
    fetch_all_promotions
        (fun p => if p = 1
          then some [[("id", PVal.int 7)], [("id", PVal.int 7)]] else some [])
        2 5
      = some ([[("id", PVal.int 7)], [("id", PVal.int 7)]], 2)
  ∧ dedupById [[("id", PVal.int 7)], [("id", PVal.int 7)]]
      = [[("id", PVal.int 7)]] := by
  exact ⟨by decide, by decide⟩

/-- C2 (corrected): when page `N` is the first page with fewer than
`perPage` records (zero included), both fetchers terminate after exactly
`N` page requests — for the reward-groups fetcher provided `N ≤ 20` (its
page budget).  The reward-groups fetcher returns the concatenation of
the fetched pages deduplicated by id, first occurrence wins; the
promotions fetcher returns the raw concatenation with no
deduplication. -/
theorem pagination_termination_amended :
    (∀ (srv : RGServer) (pp : Nat) (d : Nat → List PDict) (N : Nat),
      1 ≤ N → N ≤ 20 →
      (∀ i, 1 ≤ i → i ≤ N → srv.paged i = some (d i)) →
      (∀ i, 1 ≤ i → i < N → pp ≤ (d i).length ∧ d i ≠ []) →
      (d N).length < pp →
      fetch_all_reward_groups srv pp = ⟨dedupById (concatPages d 1 N), N, false⟩)
  ∧ (∀ (srv : Nat → Option (List PDict)) (pp : Nat) (d : Nat → List PDict)
        (N fuel : Nat),
      1 ≤ N → N ≤ fuel →
      (∀ i, 1 ≤ i → i ≤ N → srv i = some (d i)) →
      (∀ i, 1 ≤ i → i < N → pp ≤ (d i).length ∧ d i ≠ []) →
      (d N).length < pp →
      fetch_all_promotions srv pp fuel = some (concatPages d 1 N, N)) := by
  constructor
  · intro srv pp d N hN1 hN20 hp hfull hshort
    have h := rgLoop_short srv pp d N hshort (N - 1) 1 20
      (by omega) (by omega) hp hfull
    have hNe : N - 1 + 1 = N := by omega
    rw [hNe] at h
    simp only [fetch_all_reward_groups, h]
  · intro srv pp d N fuel hN1 hNf hp hfull hshort
    have h := promoLoop_short srv pp d N hshort (N - 1) 1 fuel
      (by omega) (by omega) hp hfull
    have hNe : N - 1 + 1 = N := by omega
    rw [hNe] at h
    simp only [fetch_all_promotions, h]

/-- C2 witness: both halves of the amended theorem applied at a server
whose first page is already short. -/
theorem pagination_termination_amended_witness :
    fetch_all_reward_groups ⟨fun _ => some [[("id", PVal.int 1)]], none⟩ 2
      = ⟨[[("id", PVal.int 1)]], 1, false⟩
  ∧ fetch_all_promotions (fun _ => some [[("id", PVal.int 1)]]) 2 3
      = some ([[("id", PVal.int 1)]], 1) := by
  constructor
  · have h := pagination_termination_amended.1
      ⟨fun _ => some [[("id", PVal.int 1)]], none⟩ 2
      (fun _ => [[("id", PVal.int 1)]]) 1
      (by decide) (by decide)
      (fun i _ _ => rfl) (fun i h1 h2 => absurd h2 (by omega)) (by decide)
    rw [h]
    decide
  · have h := pagination_termination_amended.2
      (fun _ => some [[("id", PVal.int 1)]]) 2
      (fun _ => [[("id", PVal.int 1)]]) 1 3
      (by decide) (by decide)
      (fun i _ _ => rfl) (fun i h1 h2 => absurd h2 (by omega)) (by decide)
    rw [h]
    decide

/-!
## Claim C5 — page budget
-/

set_option maxRecDepth 4000 in
/-- C5 counterexample: the claim as stated is false.  Against a server
whose every page is full, `fetch_all_promotions` (a `while True` loop
with no page budget) is still running after 25 iterations and after 100
iterations: no hard upper limit on page count bounds it. -/
theorem promotions_fetch_unbounded :
    fetch_all_promotions
        (fun _ => some [[("id", PVal.int 7)], [("id", PVal.int 7)]]) 2 25 = none
  ∧ fetch_all_promotions
        (fun _ => some [[("id", PVal.int 7)], [("id", PVal.int 7)]]) 2 100 = none := by
  exact ⟨by decide, by decide⟩

/-- C5 (corrected): the reward-groups fetcher is bounded by its 20-page
budget — it never issues more than 20 page requests, and on a server
whose every page is full it returns the partial deduplicated result of
the first 20 pages with the max-page warning raised.  The promotions
fetcher has no such budget: on a server whose every page is full it
never terminates, whatever iteration allowance it is given. -/
theorem page_budget_amended :
    (∀ (srv : RGServer) (pp : Nat),
      (fetch_all_reward_groups srv pp).pagedCalls ≤ 20)
  ∧ (∀ (srv : RGServer) (pp : Nat) (d : Nat → List PDict),
      (∀ i, 1 ≤ i → srv.paged i = some (d i) ∧ pp ≤ (d i).length ∧ d i ≠ []) →
      fetch_all_reward_groups srv pp = ⟨dedupById (concatPages d 1 20), 20, true⟩)
  ∧ (∀ (srv : Nat → Option (List PDict)) (pp fuel : Nat),
      (∀ i, pp ≤ ((srv i).getD []).length ∧ (srv i).getD [] ≠ []) →
      fetch_all_promotions srv pp fuel = none) := by
  refine ⟨?_, ?_, ?_⟩
  · intro srv pp
    have h := rgLoop_calls_le srv pp 20 1
    simp only [fetch_all_reward_groups]
    cases hfb : (rgLoop srv pp 1 20).fb <;> simp [hfb] <;> omega
  · intro srv pp d hp
    have h := rgLoop_full srv pp d 20 1 (fun i hi => hp i hi)
    simp only [fetch_all_reward_groups, h]
  · intro srv pp fuel hfull
    exact promoLoop_full_none srv pp hfull fuel 1

/-- C5 witness: the amended theorem applied at concrete servers. -/
theorem page_budget_amended_witness :
    (fetch_all_reward_groups ⟨fun _ => some [[("id", PVal.int 9)]], none⟩ 1).pagedCalls ≤ 20
  ∧ fetch_all_reward_groups ⟨fun _ => some [[("id", PVal.int 9)]], none⟩ 1
      = ⟨[[("id", PVal.int 9)]], 20, true⟩
  ∧ fetch_all_promotions (fun _ => some [[("id", PVal.int 9)]]) 1 30 = none := by
  refine ⟨?_, ?_, ?_⟩
  · exact page_budget_amended.1 ⟨fun _ => some [[("id", PVal.int 9)]], none⟩ 1
  · have h := page_budget_amended.2.1
      ⟨fun _ => some [[("id", PVal.int 9)]], none⟩ 1
      (fun _ => [[("id", PVal.int 9)]])
      (fun i _ => ⟨rfl, by simp, by simp⟩)
    rw [h]
    decide
  · exact page_budget_amended.2.2 (fun _ => some [[("id", PVal.int 9)]]) 1 30
      (fun i => ⟨by simp, by simp⟩)

/-!
## Claims C10 and C4 — dedup keying and listing-only fallback
-/

/-- Prepending any accumulator leaves `dedupGo` an order-preserving
selection of its input. -/
theorem dedupGo_sublist (gs : List PDict) :
    ∀ seen, (dedupGo seen gs).Sublist gs := by
  induction gs with
  | nil => intro seen; simp [dedupGo]
  | cons g rest ih =>
    intro seen
    simp only [dedupGo]
    by_cases h : pyGet g "id" ∈ seen
    · simp only [if_pos h]
      exact (ih seen).cons g
    · simp only [if_neg h]
      exact (ih (pyGet g "id" :: seen)).cons₂ g

/-- Null-keyed records surviving `dedupGo`: none once a null key has
been seen, and exactly the first one otherwise. -/
theorem dedupGo_filter_null (gs : List PDict) :
    ∀ seen, (dedupGo seen gs).filter (fun g => pyGet g "id" == PVal.null)
      = if PVal.null ∈ seen then []
        else (gs.filter (fun g => pyGet g "id" == PVal.null)).take 1 := by
  induction gs with
  | nil => intro seen; by_cases h : PVal.null ∈ seen <;> simp [dedupGo, h]
  | cons g rest ih =>
    intro seen
    by_cases hg : pyGet g "id" = PVal.null
    · have hpg : (pyGet g "id" == PVal.null) = true := by simp [hg]
      by_cases hnull : PVal.null ∈ seen
      · have hmem : pyGet g "id" ∈ seen := by rw [hg]; exact hnull
        simp only [dedupGo, if_pos hmem]
        rw [ih seen]
        simp [hnull]
      · have hmem : pyGet g "id" ∉ seen := by rw [hg]; exact hnull
        have hin : PVal.null ∈ pyGet g "id" :: seen := by
          rw [hg]; exact List.mem_cons_self _ _
        simp only [dedupGo, if_neg hmem]
        simp only [List.filter_cons, hpg, if_true]
        rw [ih (pyGet g "id" :: seen), if_pos hin, if_neg hnull]
        simp
    · have hpg : (pyGet g "id" == PVal.null) = false := by simp [hg]
      have hiff : PVal.null ∈ pyGet g "id" :: seen ↔ PVal.null ∈ seen := by
        constructor
        · intro h
          rcases List.mem_cons.mp h with he | hs
          · exact absurd he.symm hg
          · exact hs
        · exact fun hs => List.mem_cons_of_mem _ hs
      by_cases hmem : pyGet g "id" ∈ seen
      · simp only [dedupGo, if_pos hmem]
        rw [ih seen]
        simp [List.filter_cons, hpg]
      · simp only [dedupGo, if_neg hmem]
        simp only [List.filter_cons, hpg]
        rw [ih (pyGet g "id" :: seen)]
        by_cases hnull : PVal.null ∈ seen
        · simp [hiff, hnull]
        · simp [hiff, hnull]

/-- C10 (confirmed): deduplication keys on `group.get("id")`, so all
records without an id share the key `None`: the output is an
order-preserving selection of the accumulated pages in which at most
one null-keyed record — the first — survives, every later id-less
record being dropped as its duplicate. -/
theorem dedup_id_none_key_confirmed (gs : List PDict) :
    (dedupById gs).Sublist gs
  ∧ (dedupById gs).filter (fun g => pyGet g "id" == PVal.null)
      = (gs.filter (fun g => pyGet g "id" == PVal.null)).take 1 := by
  constructor
  · exact dedupGo_sublist gs []
  · rw [dedupById, dedupGo_filter_null gs []]
    simp

/-- The reward-group enrichment loop emits one record per listed entity
with a truthy id, whatever the detail fetches return. -/
theorem rgEnrichAll_length (f : PVal → PDict) (gs : List PDict) :
    (rgEnrichAll f gs).length
      = (gs.filter (fun g => truthy (pyGet g "id"))).length := by
  induction gs with
  | nil => rfl
  | cons g rest ih =>
    simp only [rgEnrichAll]
    by_cases h : truthy (pyGet g "id")
    · simp [h, List.filter, ih]
    · simp [h, List.filter, ih]

/-- An entity with a truthy id whose detail fetch fails is emitted
as-is (listing data alone) by the reward-group enrichment loop. -/
theorem rgEnrichAll_mem_failed (f : PVal → PDict) (gs : List PDict) (g : PDict)
    (hmem : g ∈ gs) (hid : truthy (pyGet g "id") = true)
    (hfail : f (pyGet g "id") = []) : g ∈ rgEnrichAll f gs := by
  induction gs with
  | nil => cases hmem
  | cons g0 rest ih =>
    rcases List.mem_cons.mp hmem with rfl | htail
    · simp only [rgEnrichAll, hid, if_pos rfl, if_pos hfail]
      exact List.mem_cons_self g _
    · simp only [rgEnrichAll]
      by_cases h0 : truthy (pyGet g0 "id")
      · simp only [h0, if_pos rfl]
        exact List.mem_cons_of_mem _ (ih htail)
      · simp only [h0, Bool.false_eq_true, if_false]
        exact ih htail

/-- C4 counterexample: the claim as stated is false for the tier and
reward reports.  A single listed entity whose detail fetch fails is
dropped entirely from `generate_tier_report`'s and
`generate_reward_report`'s enriched collections instead of being
emitted listing-only. -/
theorem tiers_rewards_drop_failed_detail :
    tiersEnrichAll (fun _ => []) [[("id", PVal.int 1)]] = []
  ∧ rewardsEnrichAll (fun _ => []) [[("id", PVal.int 1)]] = [] := by
  exact ⟨by decide, by decide⟩

/-- C4 (corrected): the reward-groups report keeps every listed entity
with a truthy id — one output record per such entity, and an entity
whose detail fetch fails is emitted with its listing data alone — but
the tier and reward reports drop entities whose detail fetch fails (and
the reward-groups loop also skips entities whose id is missing or
falsy). -/
theorem listing_only_fallback_amended :
    (∀ (f : PVal → PDict) (gs : List PDict),
      (rgEnrichAll f gs).length
        = (gs.filter (fun g => truthy (pyGet g "id"))).length)
  ∧ (∀ (f : PVal → PDict) (gs : List PDict) (g : PDict),
      g ∈ gs → truthy (pyGet g "id") = true → f (pyGet g "id") = [] →
      g ∈ rgEnrichAll f gs) :=
  ⟨fun f gs => rgEnrichAll_length f gs,
   fun f gs g hmem hid hfail => rgEnrichAll_mem_failed f gs g hmem hid hfail⟩

/-- C4 witness: the amended theorem applied to a two-entity listing in
which the detail fetch fails for every id. -/
theorem listing_only_fallback_amended_witness :
    (rgEnrichAll (fun _ => []) [[("id", PVal.int 1)], [("id", PVal.int 2)]]).length
      = ([[("id", PVal.int 1)], [("id", PVal.int 2)]].filter
          (fun g => truthy (pyGet g "id"))).length
  ∧ [("id", PVal.int 1)] ∈ rgEnrichAll (fun _ => [])
      [[("id", PVal.int 1)], [("id", PVal.int 2)]] := by
  constructor
  · exact listing_only_fallback_amended.1 (fun _ => [])
      [[("id", PVal.int 1)], [("id", PVal.int 2)]]
  · exact listing_only_fallback_amended.2 (fun _ => [])
      [[("id", PVal.int 1)], [("id", PVal.int 2)]] [("id", PVal.int 1)]
      (by decide) (by decide) rfl

/-!
## Claim C7 — unresolvable rule definitions
-/

/-- C7 (confirmed): a rule whose `ruleDefinitionId` is present but does
not resolve against the fetched definitions renders as an explicit
not-found / unknown-rule string in both reporters' `interpret_rule` (the
embedding is total, so no exception is possible on this path), and the
per-entity rule loop renders one line per rule regardless, so sibling
entities' assembly is unaffected. -/
theorem unresolvable_rule_definition_confirmed :
    (∀ (ruleDefs : List PDict) (rule : PDict),
      truthy (pyGet (asDict (pyGetD rule "ruleDefinition" (PVal.dict []))) "id") = true →
      get_rule_definition ruleDefs
        (pyGet (asDict (pyGetD rule "ruleDefinition" (PVal.dict []))) "id") = none →
      interpret_rule ruleDefs rule =
        "Rule definition "
          ++ pvStr (pyGet (asDict (pyGetD rule "ruleDefinition" (PVal.dict []))) "id")
          ++ " not found")
  ∧ (∀ (fmt : PVal → String) (ruleDefs : List PDict) (rule : PDict),
      get_rule_definition ruleDefs
        (pyGet (asDict (pyGet rule "ruleDefinition")) "id") = none →
      interpret_rule_pg fmt ruleDefs rule =
        "Unknown rule type (ID: "
          ++ pvStr (pyGet (asDict (pyGet rule "ruleDefinition")) "id") ++ ")")
  ∧ (∀ (ruleDefs : List PDict) (rules : List PVal),
      (ruleInterpretations ruleDefs rules).length = rules.length) := by
  refine ⟨?_, ?_, ?_⟩
  · intro ruleDefs rule ht hn
    simp [interpret_rule, ht, hn]
  · intro fmt ruleDefs rule hn
    simp [interpret_rule_pg, hn]
  · intro ruleDefs rules
    simp [ruleInterpretations]

/-- C7 witness: an id that resolves against no definition renders the
literal not-found strings. -/
theorem unresolvable_rule_definition_confirmed_witness :
    interpret_rule [[("id", PVal.int 1), ("name", PVal.str "X")]]
        [("ruleDefinition", PVal.dict [("id", PVal.int 999)])]
      = "Rule definition 999 not found"
  ∧ interpret_rule_pg pvStr [[("id", PVal.int 1), ("name", PVal.str "X")]]
        [("ruleDefinition", PVal.dict [("id", PVal.int 999)])]
      = "Unknown rule type (ID: 999)" := by
  constructor
  · have h := unresolvable_rule_definition_confirmed.1
      [[("id", PVal.int 1), ("name", PVal.str "X")]]
      [("ruleDefinition", PVal.dict [("id", PVal.int 999)])]
      (by decide) (by decide)
    rw [h]
    decide
  · have h := unresolvable_rule_definition_confirmed.2.1 pvStr
      [[("id", PVal.int 1), ("name", PVal.str "X")]]
      [("ruleDefinition", PVal.dict [("id", PVal.int 999)])]
      (by decide)
    rw [h]
    decide

/-!
## Claim C8 — condition value rendering precedence
-/

/-- C8 counterexample: the claim as stated is false.  For a date-range
component, a present (truthy) `selectedText` is ignored: the dedicated
date-range branch renders its own placeholder instead. -/
theorem daterange_ignores_selected_text :
    interpret_rule_value []
        [("component", PVal.dict [("id", PVal.int 1), ("type", PVal.str "dateRange")]),
         ("selectedText", PVal.str "Last Year")]
      = "Date Range: not specified"
  ∧ truthy (pyGet
        [("component", PVal.dict [("id", PVal.int 1), ("type", PVal.str "dateRange")]),
         ("selectedText", PVal.str "Last Year")] "selectedText") = true := by
  exact ⟨by decide, by decide⟩

/-- C8 (corrected): for every condition value whose component type is
not `"dateRange"`, the rendering follows the claimed precedence —
truthy `selectedText`, else `value1`/`value2` joined as a range, else
`value1` alone, else the `"(no value specified)"` placeholder; a
date-range component is instead rendered by a dedicated branch keyed on
its operator and values that ignores `selectedText` and always begins
with `"Date Range: "`. -/
theorem rule_value_precedence_amended :
    (∀ (rd vi : PDict),
      pyGet (asDict (pyGetD vi "component" (PVal.dict []))) "type"
        ≠ PVal.str "dateRange" →
      interpret_rule_value rd vi =
        (if truthy (pyGet vi "selectedText") then pvStr (pyGet vi "selectedText")
         else if truthy (pyGet vi "value1") ∧ truthy (pyGet vi "value2") then
           pvStr (pyGet vi "value1") ++ " to " ++ pvStr (pyGet vi "value2")
         else if truthy (pyGet vi "value1") then pvStr (pyGet vi "value1")
         else "(no value specified)"))
  ∧ (∀ (rd vi : PDict),
      pyGet (asDict (pyGetD vi "component" (PVal.dict []))) "type"
        = PVal.str "dateRange" →
      ∃ s, interpret_rule_value rd vi = "Date Range: " ++ s) := by
  constructor
  · intro rd vi hne
    simp only [interpret_rule_value]
    by_cases hst : truthy (pyGet vi "selectedText")
    · by_cases hd : pyGet (asDict (pyGetD vi "component" (PVal.dict []))) "type"
          = PVal.str "dropdown"
      · simp [hd, hst, hne]
      · simp [hd, hst, hne]
    · simp [hst, hne]
  · intro rd vi heq
    simp only [interpret_rule_value, heq]
    by_cases h1 : pyGetD vi "operator" (PVal.str "") = PVal.str "customDates"
        ∧ truthy (pyGet vi "value1") ∧ truthy (pyGet vi "value2")
    · exact ⟨pvStr (pyGet vi "value1") ++ (" to " ++ pvStr (pyGet vi "value2")),
        by simp [h1, String.append_assoc]⟩
    · by_cases h2 : pyGetD vi "operator" (PVal.str "") = PVal.str "previous365Days"
      · exact ⟨"Previous 365 Days", by simp [h1, h2]⟩
      · by_cases h3 : pyGetD vi "operator" (PVal.str "") = PVal.str "previousMonth"
        · exact ⟨"Previous Month", by simp [h1, h2, h3]⟩
        · by_cases h4 : truthy (pyGet vi "value1") ∧ truthy (pyGet vi "value2")
          · exact ⟨pvStr (pyGet vi "value1") ++ (" to " ++ pvStr (pyGet vi "value2")),
              by simp [h1, h2, h3, h4, String.append_assoc]⟩
          · by_cases h5 : truthy (pyGet vi "value1")
            · have hv2 : ¬ truthy (pyGet vi "value2") = true :=
                fun hv => h4 ⟨h5, hv⟩
              refine ⟨"from " ++ pvStr (pyGet vi "value1"), ?_⟩
              simp [h1, h2, h3, h4, h5, hv2]
              rw [← String.append_assoc]
              exact congrArg (fun a => a ++ pvStr (pyGet vi "value1")) (by decide)
            · exact ⟨"not specified", by simp [h1, h2, h3, h4, h5]⟩

/-- C8 witness: the amended precedence applied to a dropdown condition
carrying a selected text, and to a date-range condition. -/
theorem rule_value_precedence_amended_witness :
    interpret_rule_value []
        [("component", PVal.dict [("type", PVal.str "dropdown")]),
         ("selectedText", PVal.str "Gold members")]
      = "Gold members"
  ∧ (∃ s, interpret_rule_value []
        [("component", PVal.dict [("type", PVal.str "dateRange")])]
      = "Date Range: " ++ s) := by
  constructor
  · have h := rule_value_precedence_amended.1 []
      [("component", PVal.dict [("type", PVal.str "dropdown")]),
       ("selectedText", PVal.str "Gold members")]
      (by decide)
    rw [h]
    decide
  · exact rule_value_precedence_amended.2 []
      [("component", PVal.dict [("type", PVal.str "dateRange")])] (by decide)

/-!
## Claim C9 — summary row order
-/

/-- C9 counterexample: the claim as stated is false.  The promotions
summary sorts primarily by `promotionType`, so the row with id 2 (type
"a") precedes the row with id 1 (type "b"): rows are not in ascending
id order. -/
theorem promotions_summary_type_first :
    promotionsSummaryRows
        [[("promotionType", PVal.str "b"), ("id", PVal.int 1)],
         [("promotionType", PVal.str "a"), ("id", PVal.int 2)]]
      = [[("promotionType", PVal.str "a"), ("id", PVal.int 2)],
         [("promotionType", PVal.str "b"), ("id", PVal.int 1)]]
  ∧ ¬ List.Sorted rgRowLe
      [[("promotionType", PVal.str "a"), ("id", PVal.int 2)],
       [("promotionType", PVal.str "b"), ("id", PVal.int 1)]] := by
  exact ⟨by decide, by decide⟩

/-- C9 (corrected): each summary has exactly one row per entity (the
rows are a permutation of the entity collection).  The reward-groups
summary is sorted by ascending id; the promotions summary is sorted by
the pair (promotion subtype, id) with the subtype as the *primary* key
and id only breaking ties within a subtype — not by ascending id with
subtype as secondary key. -/
theorem summary_sort_amended :
    (∀ gs : List PDict, (rewardGroupsSummaryRows gs).Perm gs
      ∧ List.Sorted rgRowLe (rewardGroupsSummaryRows gs))
  ∧ (∀ ps : List PDict, (promotionsSummaryRows ps).Perm ps
      ∧ List.Sorted promoRowLe (promotionsSummaryRows ps)) := by
  constructor
  · intro gs
    exact ⟨List.perm_insertionSort rgRowLe gs, List.sorted_insertionSort rgRowLe gs⟩
  · intro ps
    exact ⟨List.perm_insertionSort promoRowLe ps,
      List.sorted_insertionSort promoRowLe ps⟩
